import Mathlib

/-!
Shallow embedding of the transcription core of `src/server/transcription.go`
(package main): the in-memory transcription queue (Job Store), the startup
discovery scan, the recognizer-output parsing, the metadata integration step,
and the worker loop's effect on the on-disk marker files.

Go maps are embedded as lists: `map[string]bool` sets as `List String`
(insertion keeps the list duplicate-free, deletion removes every occurrence,
matching map-key semantics), and the `map[string]string` failure map as an
association list updated in place.  Go `float64` values carried by transcript
segments are embedded as `Rat`; no claim performs floating-point arithmetic
on them, they are only moved around and compared.
-/

/-- Go `map[string]bool` used as a set: setting a key to true. -/
def insertSet (l : List String) (f : String) : List String :=
  if f ∈ l then l else l ++ [f]

/-- Go `delete(m, f)` on a set-valued map: the key is gone afterwards. -/
def removeSet (l : List String) (f : String) : List String :=
  l.filter (fun g => g ≠ f)

/-- Go `m[k] = v` on a `map[string]string`: replace the binding in place,
or append a fresh one. -/
def setKey : List (String × String) → String → String → List (String × String)
  | [], k, v => [(k, v)]
  | (k', v') :: t, k, v => if k' = k then (k, v) :: t else (k', v') :: setKey t k v

/-- TranscriptionQueue manages the queue of files to be transcribed
(struct `TranscriptionQueue`, transcription.go lines 16-22; the mutex is
not modelled, every operation is one atomic step). -/
structure TranscriptionQueue where
  Queue : List String
  InProcess : List String
  Completed : List String
  Failed : List (String × String)
deriving DecidableEq, Repr

namespace TranscriptionQueue

/-- The initial global queue `TQueue` (transcription.go lines 38-43). -/
def initQueue : TranscriptionQueue := ⟨[], [], [], []⟩

/-- Check if a file is in the queue (`isInQueue`, lines 76-83). -/
def isInQueue (tq : TranscriptionQueue) (filename : String) : Bool :=
  tq.Queue.contains filename

/-- Go map indexing `tq.Failed[filename]`: the stored message, or the zero
value `""` when the key is absent. -/
def failedVal (tq : TranscriptionQueue) (filename : String) : String :=
  (tq.Failed.lookup filename).getD ""

/-- Add a file to the transcription queue (`AddToQueue`, lines 61-73). -/
def AddToQueue (tq : TranscriptionQueue) (filename : String) : TranscriptionQueue :=
  if tq.isInQueue filename || tq.InProcess.contains filename
      || tq.Completed.contains filename || tq.failedVal filename != "" then
    tq
  else
    { tq with Queue := tq.Queue ++ [filename] }

/-- Get the next file from the queue (`GetNext`, lines 86-104); the Go
`(string, bool)` comma-ok pair is embedded as an `Option`. -/
def GetNext (tq : TranscriptionQueue) : Option String × TranscriptionQueue :=
  match tq.Queue with
  | [] => (none, tq)
  | filename :: rest =>
    (some filename,
      { tq with Queue := rest, InProcess := insertSet tq.InProcess filename })

/-- Mark a file as completed (`MarkCompleted`, lines 107-113). -/
def MarkCompleted (tq : TranscriptionQueue) (filename : String) : TranscriptionQueue :=
  { tq with InProcess := removeSet tq.InProcess filename,
            Completed := insertSet tq.Completed filename }

/-- Mark a file as failed with an error message (`MarkFailed`, lines 116-122). -/
def MarkFailed (tq : TranscriptionQueue) (filename errorMsg : String) : TranscriptionQueue :=
  { tq with InProcess := removeSet tq.InProcess filename,
            Failed := setKey tq.Failed filename errorMsg }

/-- How many of the four state sets a filename belongs to; queue membership
is counted with multiplicity, failure membership is key presence. -/
def cnt (tq : TranscriptionQueue) (f : String) : Nat :=
  tq.Queue.count f
    + (if f ∈ tq.InProcess then 1 else 0)
    + (if f ∈ tq.Completed then 1 else 0)
    + (if (tq.Failed.lookup f).isSome then 1 else 0)

/-- The mutual-exclusion invariant of the spec: every filename is in at most
one of the four sets. -/
def Inv (tq : TranscriptionQueue) : Prop :=
  ∀ f, tq.cnt f ≤ 1

end TranscriptionQueue

/-- Go `strings.HasSuffix`, on the underlying character lists. -/
def hasSuffix (s suffix : String) : Bool :=
  suffix.data.isSuffixOf s.data

/-- Go `strings.ToLower`, mapping every character to its lower case. -/
def toLowerStr (s : String) : String :=
  ⟨s.data.map Char.toLower⟩

/-- Video extension test of `processTranscription` (lines 248-249). -/
def isVideo (filename : String) : Bool :=
  hasSuffix (toLowerStr filename) ".mp4" || hasSuffix (toLowerStr filename) ".mov"

/-- Audio extension test of `processTranscription` (line 250). -/
def isAudio (filename : String) : Bool :=
  hasSuffix (toLowerStr filename) ".mp3" || hasSuffix (toLowerStr filename) ".wav"

/-- The audio-or-video extension test of `checkExistingMediaFiles`
(lines 216-222): four suffix checks against the lowercased name. -/
def isMediaFile (filename : String) : Bool :=
  hasSuffix (toLowerStr filename) ".mp3" || hasSuffix (toLowerStr filename) ".wav"
    || hasSuffix (toLowerStr filename) ".mp4" || hasSuffix (toLowerStr filename) ".mov"

/-- One entry of `os.ReadDir(mediaDir)`: a name and whether it is a directory. -/
structure DirEntry where
  name : String
  isDir : Bool
deriving DecidableEq, Repr

/-- The per-entry decision of `checkExistingMediaFiles` (lines 210-234):
skip directories, require a media extension, then enqueue only when neither
the `<f>.json` transcript marker nor the `<f>.failed` marker exists in the
transcripts directory (`tfiles` is that directory's listing). -/
def shouldProcess (e : DirEntry) (tfiles : List String) : Bool :=
  if e.isDir then false
  else if isMediaFile e.name then
    if !(tfiles.contains (e.name ++ ".json")) then
      if !(tfiles.contains (e.name ++ ".failed")) then true else false
    else false
  else false

/-- Check for existing media files that don't have transcripts
(`checkExistingMediaFiles`, lines 203-236), folded over the media directory
listing, enqueuing into the global queue. -/
def checkExistingMediaFiles (entries : List DirEntry) (tfiles : List String)
    (tq : TranscriptionQueue) : TranscriptionQueue :=
  entries.foldl
    (fun acc e => if shouldProcess e tfiles then acc.AddToQueue e.name else acc) tq

/-- TranscriptEntry (main.go lines 502-510): one transcript segment; the Go
`float64` offsets are embedded as rationals. -/
structure TranscriptEntry where
  Start : Rat
  End : Rat
  Text : String
  Segment : Nat
  Speaker : String := ""
  Metadata : String := ""
deriving DecidableEq, Repr

/-- MediaMetadata (main.go lines 479-489); the Go field `Type` is renamed
`MediaType` because `Type` is a Lean keyword. -/
structure MediaMetadata where
  ID : String
  Filename : String
  Path : String
  MediaType : String
  Timestamp : String
  Duration : Rat := 0
  Transcription : String
  Labels : List String
  Transcripts : List TranscriptEntry
deriving DecidableEq, Repr

/-- Update metadata with transcript information (`updateMetadataWithTranscript`,
lines 427-436): the pure part, after both files were read and parsed — the
transcripts field is replaced and the full text is rebuilt by the
`strings.Builder` loop, which appends each segment text followed by a space. -/
def updateMetadataWithTranscript (metadata : MediaMetadata)
    (transcriptEntries : List TranscriptEntry) : MediaMetadata :=
  { metadata with
      Transcripts := transcriptEntries,
      Transcription :=
        transcriptEntries.foldl (fun fullText entry => fullText ++ entry.Text ++ " ") "" }

/-- Modelled from the spec's words for the refinement side of the
`transcription` claim: the space-joined concatenation of a list of strings
(texts separated by single spaces, no trailing separator). -/
def specSpaceJoined : List String → String
  | [] => ""
  | [x] => x
  | x :: xs => x ++ " " ++ specSpaceJoined xs

/-- Generic JSON values, the image of Go's `interface{}` after
`json.Unmarshal`: null, booleans, numbers (Go gives `float64`, embedded as
rationals), strings, arrays and objects. -/
inductive JVal where
  | null : JVal
  | bool : Bool → JVal
  | num : Rat → JVal
  | str : String → JVal
  | arr : List JVal → JVal
  | obj : List (String × JVal) → JVal

/-- Go comma-ok type assertion `v.(float64)` applied to a map lookup:
the number, or the zero value 0 when the key is absent or not a number. -/
def jNum : Option JVal → Rat
  | some (JVal.num q) => q
  | _ => 0

/-- Go comma-ok type assertion `v.(string)` applied to a map lookup:
the string, or the zero value `""` when the key is absent or not a string. -/
def jStr : Option JVal → String
  | some (JVal.str s) => s
  | _ => ""

/-- The segment loop of `runWhisperX` (lines 368-387): walk the `segments`
array with its running index; an element that is not a JSON object is
skipped (`continue`), an object element always yields an entry whose
`start`/`end`/`text` default to zero values when absent or mistyped. -/
def parseSegLoop : Nat → List JVal → List TranscriptEntry
  | _, [] => []
  | i, s :: rest =>
    match s with
    | JVal.obj fields =>
      { Start := jNum (fields.lookup "start"),
        End := jNum (fields.lookup "end"),
        Text := jStr (fields.lookup "text"),
        Segment := i } :: parseSegLoop (i + 1) rest
    | _ => parseSegLoop (i + 1) rest

/-- The parsing tail of `runWhisperX` (lines 356-387): the recognizer output
document (already unmarshalled into a Go `map[string]interface{}`) must carry
a `segments` key holding an array, else the job fails with
`invalid whisperx output format`; on success the segment loop runs. -/
def runWhisperXParse (whisperOutput : List (String × JVal)) :
    Except String (List TranscriptEntry) :=
  match whisperOutput.lookup "segments" with
  | some (JVal.arr segments) => Except.ok (parseSegLoop 0 segments)
  | _ => Except.error "invalid whisperx output format"

/-- What the loop keeps at one position: objects become entries with
defensively defaulted fields and the original index, everything else is
dropped.  Used to state the characterization of `parseSegLoop`. -/
def segEntry (i : Nat) (s : JVal) : Option TranscriptEntry :=
  match s with
  | JVal.obj fields =>
    some { Start := jNum (fields.lookup "start"),
           End := jNum (fields.lookup "end"),
           Text := jStr (fields.lookup "text"),
           Segment := i }
  | _ => none

/-- The file-system state the pipeline touches: the media directory, the
transcripts directory (markers and scratch audio) and the metadata
directory, each as a listing of file names. -/
structure Fs where
  media : List String
  transcripts : List String
  metadata : List String
deriving DecidableEq, Repr

/-- Outcome of the recognition stage (`runWhisperX`, lines 301-400) as seen
by `processTranscription`: `fatal` is the `log.Fatal` taken when `os.Chmod`
on the fresh scratch directory fails (lines 309-312), which kills the whole
process; `fail` is any of the returned errors; `ok` carries the parsed
entries, with the transcript written to the output path. -/
inductive RecogResult where
  | fatal : RecogResult
  | fail : String → RecogResult
  | ok : List TranscriptEntry → RecogResult
deriving DecidableEq, Repr

/-- Environment outcomes for one run of the pipeline: the result of the
external extraction tool, of the recognition stage, and of the metadata
parse/write steps of the integration stage. -/
structure PipelineOracle where
  extractErr : Option String
  recog : RecogResult
  metaParseOk : Bool
  metaWriteErr : Option String
deriving DecidableEq, Repr

/-- Whether the recognition stage ran and succeeded for this job: the media
file exists, its type is supported, extraction (for video) succeeded, and
the recognizer produced parsed entries. -/
def recognitionSucceeded (filename : String) (o : PipelineOracle) (fs : Fs) : Bool :=
  fs.media.contains filename
    && (isVideo filename || isAudio filename)
    && (!(isVideo filename) || o.extractErr.isNone)
    && (match o.recog with | RecogResult.ok _ => true | _ => false)

/-- Whether the integration stage, reached after a successful recognition,
fails: missing metadata record, unparseable metadata, or a write error. -/
def integrationFailed (filename : String) (o : PipelineOracle) (fs : Fs) : Bool :=
  recognitionSucceeded filename o fs
    && (!(fs.metadata.contains (filename ++ ".json"))
        || !o.metaParseOk || o.metaWriteErr.isSome)

/-- Process a file for transcription (`processTranscription`, lines 239-288)
as a file-system transformer: `none` means the process died inside
recognition (the `log.Fatal` path); otherwise the Go error result together
with the updated file system.  For video the scratch `<f>.wav` is written by
extraction and removed again only on the recognition success path. -/
def processTranscription (filename : String) (o : PipelineOracle) (fs : Fs) :
    Option (Except String Unit × Fs) :=
  if !(fs.media.contains filename) then
    some (Except.error ("file does not exist: " ++ filename), fs)
  else if !(isVideo filename) && !(isAudio filename) then
    some (Except.error ("unsupported file type: " ++ filename), fs)
  else
    match (if isVideo filename then o.extractErr else none) with
    | some e => some (Except.error ("failed to extract audio: " ++ e), fs)
    | none =>
      let fs1 : Fs :=
        if isVideo filename then
          { fs with transcripts := insertSet fs.transcripts (filename ++ ".wav") }
        else fs
      match o.recog with
      | RecogResult.fatal => none
      | RecogResult.fail m =>
        some (Except.error ("whisperx transcription failed: " ++ m), fs1)
      | RecogResult.ok _entries =>
        let fs2 : Fs :=
          { fs1 with transcripts := insertSet fs1.transcripts (filename ++ ".json") }
        let fs3 : Fs :=
          if isVideo filename then
            { fs2 with transcripts := removeSet fs2.transcripts (filename ++ ".wav") }
          else fs2
        if !(fs3.metadata.contains (filename ++ ".json")) then
          some (Except.error "failed to update metadata: failed to read metadata file", fs3)
        else if !o.metaParseOk then
          some (Except.error "failed to update metadata: failed to parse metadata", fs3)
        else
          match o.metaWriteErr with
          | some e =>
            some (Except.error ("failed to update metadata: failed to write updated metadata: " ++ e), fs3)
          | none => some (Except.ok (), fs3)

/-- One iteration of the worker loop after a successful dequeue
(`transcriptionWorker`, lines 182-198): on a pipeline error the job is
marked failed and the `<f>.failed` marker is written with the error text;
on success the job is marked completed; `none` propagates a process death
inside the pipeline. -/
def transcriptionWorkerStep (filename : String) (o : PipelineOracle) (fs : Fs)
    (tq : TranscriptionQueue) : Option (TranscriptionQueue × Fs) :=
  match processTranscription filename o fs with
  | none => none
  | some (Except.error e, fs') =>
    some (tq.MarkFailed filename e,
      { fs' with transcripts := insertSet fs'.transcripts (filename ++ ".failed") })
  | some (Except.ok _, fs') => some (tq.MarkCompleted filename, fs')

/-! Helper lemmas about the embedded Go map/set operations. -/

theorem mem_insertSet {l : List String} {f g : String} :
    g ∈ insertSet l f ↔ g ∈ l ∨ g = f := by
  unfold insertSet
  split
  · rename_i h
    constructor
    · exact Or.inl
    · rintro (hg | rfl)
      · exact hg
      · exact h
  · simp [List.mem_append]

theorem mem_insertSet_self {l : List String} {f : String} : f ∈ insertSet l f :=
  mem_insertSet.mpr (Or.inr rfl)

theorem insertSet_of_mem {l : List String} {f : String} (h : f ∈ l) :
    insertSet l f = l := by
  simp [insertSet, h]

theorem mem_removeSet {l : List String} {f g : String} :
    g ∈ removeSet l f ↔ g ∈ l ∧ g ≠ f := by
  simp [removeSet, List.mem_filter]

theorem not_mem_removeSet_self {l : List String} {f : String} :
    f ∉ removeSet l f := by
  simp [mem_removeSet]

theorem removeSet_of_not_mem {l : List String} {f : String} (h : f ∉ l) :
    removeSet l f = l := by
  unfold removeSet
  apply List.filter_eq_self.mpr
  intro a ha
  simp only [decide_eq_true_eq]
  intro rfl_eq
  exact h (rfl_eq ▸ ha)

theorem insertSet_idem {l : List String} {f : String} :
    insertSet (insertSet l f) f = insertSet l f :=
  insertSet_of_mem mem_insertSet_self

theorem removeSet_idem {l : List String} {f : String} :
    removeSet (removeSet l f) f = removeSet l f :=
  removeSet_of_not_mem not_mem_removeSet_self

theorem lookup_cons_eqn (k' v' : String) (t : List (String × String)) (g : String) :
    ((k', v') :: t).lookup g = if g = k' then some v' else t.lookup g := by
  by_cases h : g = k'
  · subst h; simp [List.lookup]
  · have hb : (g == k') = false := by
      simpa using h
    simp [List.lookup, hb, h]

theorem lookup_setKey_self (l : List (String × String)) (k v : String) :
    (setKey l k v).lookup k = some v := by
  induction l with
  | nil => simp [setKey, lookup_cons_eqn]
  | cons p t ih =>
    obtain ⟨k', v'⟩ := p
    by_cases h : k' = k
    · subst h; simp [setKey, lookup_cons_eqn]
    · simp only [setKey, if_neg h]
      rw [lookup_cons_eqn, if_neg (fun he => h he.symm)]
      exact ih

theorem lookup_setKey_ne (l : List (String × String)) {g k : String} (v : String)
    (h : g ≠ k) : (setKey l k v).lookup g = l.lookup g := by
  induction l with
  | nil => simp [setKey, lookup_cons_eqn, h]
  | cons p t ih =>
    obtain ⟨k', v'⟩ := p
    by_cases hk : k' = k
    · subst hk
      simp [setKey, lookup_cons_eqn, h]
    · simp only [setKey, if_neg hk]
      by_cases hg : g = k'
      · simp [lookup_cons_eqn, hg]
      · rw [lookup_cons_eqn, lookup_cons_eqn, if_neg hg, if_neg hg]
        exact ih

theorem setKey_of_lookup_eq {l : List (String × String)} {k v : String}
    (h : l.lookup k = some v) : setKey l k v = l := by
  induction l with
  | nil => simp at h
  | cons p t ih =>
    obtain ⟨k', v'⟩ := p
    by_cases hk : k' = k
    · subst hk
      rw [lookup_cons_eqn, if_pos rfl] at h
      injection h with h
      simp [setKey, h]
    · rw [lookup_cons_eqn, if_neg (fun he => hk he.symm)] at h
      simp only [setKey, if_neg hk]
      rw [ih h]

theorem contains_iff_mem {l : List String} {f : String} :
    l.contains f = true ↔ f ∈ l := List.elem_iff

/-! Claim theorems for the Job Store. -/

/-- C10: after `MarkFailed f ""` records an empty error message, the failed
map holds the key `f` with value `""`, yet a subsequent `AddToQueue f` adds
`f` to the queue again (the enqueue guard tests `Failed[f] != ""`, not key
membership), so `f` is simultaneously in the failed map and the queue. -/
theorem markFailed_empty_message_allows_requeue :
    ((TranscriptionQueue.initQueue.MarkFailed "a" "").Failed.lookup "a" = some "")
    ∧ ((TranscriptionQueue.initQueue.MarkFailed "a" "").AddToQueue "a").Queue = ["a"]
    ∧ ((TranscriptionQueue.initQueue.MarkFailed "a" "").AddToQueue "a").Failed.lookup "a"
        = some "" := by
  refine ⟨rfl, rfl, rfl⟩

/-- C5: `GetNext` on an empty queue returns no job and leaves the state
untouched; on a non-empty queue it returns the front element, removes it
from the queue, and marks it in-process, all in one step. -/
theorem getNext_fifo_dequeue :
    ∀ tq : TranscriptionQueue,
      (tq.Queue = [] → tq.GetNext = (none, tq))
      ∧ (∀ f rest, tq.Queue = f :: rest →
          tq.GetNext = (some f,
            { tq with Queue := rest, InProcess := insertSet tq.InProcess f })) := by
  intro tq
  constructor
  · intro h
    simp [TranscriptionQueue.GetNext, h]
  · intro f rest h
    simp [TranscriptionQueue.GetNext, h]

/-- Witness for the dequeue specification at a concrete two-element queue. -/
theorem getNext_fifo_dequeue_witness :
    TranscriptionQueue.GetNext ⟨["a", "b"], [], [], []⟩
      = (some "a", ⟨["b"], ["a"], [], []⟩) :=
  (getNext_fifo_dequeue ⟨["a", "b"], [], [], []⟩).2 "a" ["b"] rfl

/-- C6 counterexample: `MarkCompleted "a"` on the fresh store, where `"a"`
is not in-process, is not a no-op — it unconditionally records `"a"` as
completed. -/
theorem markCompleted_not_noop_outside_inprocess :
    "a" ∉ TranscriptionQueue.initQueue.InProcess
    ∧ TranscriptionQueue.initQueue.MarkCompleted "a" ≠ TranscriptionQueue.initQueue := by
  refine ⟨by simp [TranscriptionQueue.initQueue], by decide⟩

/-- C6 amended: `MarkCompleted`/`MarkFailed` always remove the filename from
the in-process set and unconditionally record it in the respective terminal
set; both are idempotent, and they are genuine no-ops exactly when the
filename is outside the in-process set and already recorded in the terminal
set (with the same message, for a failure). -/
theorem mark_terminal_ops_spec :
    (∀ (tq : TranscriptionQueue) (f : String),
        (tq.MarkCompleted f).MarkCompleted f = tq.MarkCompleted f)
    ∧ (∀ (tq : TranscriptionQueue) (f : String),
        f ∉ (tq.MarkCompleted f).InProcess ∧ f ∈ (tq.MarkCompleted f).Completed)
    ∧ (∀ (tq : TranscriptionQueue) (f : String),
        f ∉ tq.InProcess → f ∈ tq.Completed → tq.MarkCompleted f = tq)
    ∧ (∀ (tq : TranscriptionQueue) (f e : String),
        (tq.MarkFailed f e).MarkFailed f e = tq.MarkFailed f e)
    ∧ (∀ (tq : TranscriptionQueue) (f e : String),
        f ∉ (tq.MarkFailed f e).InProcess
          ∧ (tq.MarkFailed f e).Failed.lookup f = some e)
    ∧ (∀ (tq : TranscriptionQueue) (f e : String),
        f ∉ tq.InProcess → tq.Failed.lookup f = some e → tq.MarkFailed f e = tq) := by
  refine ⟨?_, ?_, ?_, ?_, ?_, ?_⟩
  · intro tq f
    simp [TranscriptionQueue.MarkCompleted, removeSet_idem, insertSet_idem]
  · intro tq f
    exact ⟨not_mem_removeSet_self, mem_insertSet_self⟩
  · intro tq f h1 h2
    simp [TranscriptionQueue.MarkCompleted, removeSet_of_not_mem h1, insertSet_of_mem h2]
  · intro tq f e
    simp [TranscriptionQueue.MarkFailed, removeSet_idem,
      setKey_of_lookup_eq (lookup_setKey_self tq.Failed f e)]
  · intro tq f e
    exact ⟨not_mem_removeSet_self, lookup_setKey_self tq.Failed f e⟩
  · intro tq f e h1 h2
    simp [TranscriptionQueue.MarkFailed, removeSet_of_not_mem h1, setKey_of_lookup_eq h2]

/-- Witness for the mark-operation specification at concrete stores. -/
theorem mark_terminal_ops_spec_witness :
    TranscriptionQueue.MarkCompleted ⟨[], [], ["a"], []⟩ "a" = ⟨[], [], ["a"], []⟩
    ∧ TranscriptionQueue.MarkFailed ⟨[], [], [], [("a", "boom")]⟩ "a" "boom"
        = ⟨[], [], [], [("a", "boom")]⟩ :=
  ⟨mark_terminal_ops_spec.2.2.1 ⟨[], [], ["a"], []⟩ "a" (by decide) (by decide),
   mark_terminal_ops_spec.2.2.2.2.2 ⟨[], [], [], [("a", "boom")]⟩ "a" "boom"
     (by decide) (by decide)⟩

/-- C4 counterexample: a filename that failed with an empty recorded error
message is re-enqueued — `AddToQueue` is not a no-op on it. -/
theorem addToQueue_requeues_after_empty_failure :
    ((TranscriptionQueue.initQueue.MarkFailed "a" "").Failed.lookup "a" = some "")
    ∧ (TranscriptionQueue.initQueue.MarkFailed "a" "").AddToQueue "a"
        ≠ TranscriptionQueue.initQueue.MarkFailed "a" "" := by
  refine ⟨rfl, by decide⟩

/-- The enqueue guard fires on any known filename: no state change. -/
theorem addToQueue_known (tq : TranscriptionQueue) (f : String)
    (h : f ∈ tq.Queue ∨ f ∈ tq.InProcess ∨ f ∈ tq.Completed ∨ tq.failedVal f ≠ "") :
    tq.AddToQueue f = tq := by
  unfold TranscriptionQueue.AddToQueue
  split
  · rfl
  · rename_i hc
    exfalso
    apply hc
    rcases h with h | h | h | h
    · simp [TranscriptionQueue.isInQueue, List.contains, List.elem_iff, h]
    · simp [List.contains, List.elem_iff, h]
    · simp [List.contains, List.elem_iff, h]
    · simp [bne_iff_ne, h]

/-- An unknown filename is appended to the back of the queue. -/
theorem addToQueue_unknown (tq : TranscriptionQueue) (f : String)
    (h1 : f ∉ tq.Queue) (h2 : f ∉ tq.InProcess) (h3 : f ∉ tq.Completed)
    (h4 : tq.failedVal f = "") :
    tq.AddToQueue f = { tq with Queue := tq.Queue ++ [f] } := by
  unfold TranscriptionQueue.AddToQueue
  split
  · rename_i hc
    exfalso
    simp [TranscriptionQueue.isInQueue, List.contains, List.elem_iff,
      bne_iff_ne, h1, h2, h3, h4] at hc
  · rfl

/-- C4 amended: `AddToQueue` is a no-op on a filename that is queued,
in-process, completed, or failed with a non-empty recorded message; it is
idempotent, and from a state where the filename is unknown two consecutive
calls leave exactly one queued entry for it. -/
theorem addToQueue_idempotent_spec :
    (∀ (tq : TranscriptionQueue) (f : String),
        f ∈ tq.Queue ∨ f ∈ tq.InProcess ∨ f ∈ tq.Completed ∨ tq.failedVal f ≠ "" →
        tq.AddToQueue f = tq)
    ∧ (∀ (tq : TranscriptionQueue) (f : String),
        (tq.AddToQueue f).AddToQueue f = tq.AddToQueue f)
    ∧ (∀ (tq : TranscriptionQueue) (f : String),
        tq.Queue.count f = 0 → f ∉ tq.InProcess → f ∉ tq.Completed →
        tq.failedVal f = "" →
        ((tq.AddToQueue f).AddToQueue f).Queue.count f = 1) := by
  refine ⟨addToQueue_known, ?_, ?_⟩
  · intro tq f
    by_cases h : f ∈ tq.Queue ∨ f ∈ tq.InProcess ∨ f ∈ tq.Completed ∨ tq.failedVal f ≠ ""
    · rw [addToQueue_known tq f h, addToQueue_known tq f h]
    · push_neg at h
      obtain ⟨h1, h2, h3, h4⟩ := h
      rw [addToQueue_unknown tq f h1 h2 h3 h4]
      exact addToQueue_known _ f (Or.inl (by simp))
  · intro tq f h1 h2 h3 h4
    rw [addToQueue_unknown tq f (List.count_eq_zero.mp h1) h2 h3 h4,
      addToQueue_known _ f (Or.inl (by simp))]
    simp [h1]

/-- Witness for the enqueue specification at concrete stores. -/
theorem addToQueue_idempotent_spec_witness :
    TranscriptionQueue.AddToQueue ⟨["a"], [], [], []⟩ "a" = ⟨["a"], [], [], []⟩
    ∧ ((TranscriptionQueue.initQueue.AddToQueue "b").AddToQueue "b").Queue.count "b" = 1 :=
  ⟨addToQueue_idempotent_spec.1 ⟨["a"], [], [], []⟩ "a" (Or.inl (by simp)),
   addToQueue_idempotent_spec.2.2 TranscriptionQueue.initQueue "b"
     (by decide) (by decide) (by decide) (by decide)⟩

/-- The fresh store satisfies the mutual-exclusion invariant. -/
theorem inv_initQueue : TranscriptionQueue.Inv TranscriptionQueue.initQueue := by
  intro f
  simp [TranscriptionQueue.cnt, TranscriptionQueue.initQueue]

/-- A store holding one queued filename satisfies the invariant. -/
theorem inv_single_queued (a : String) :
    TranscriptionQueue.Inv ⟨[a], [], [], []⟩ := by
  intro f
  by_cases h : f = a
  · subst h
    simp [TranscriptionQueue.cnt, List.count_singleton]
  · have hbeq : (a == f) = false := by
      simpa using fun he => h he.symm
    simp [TranscriptionQueue.cnt, List.count_singleton, hbeq]

/-- A store holding one in-process filename satisfies the invariant. -/
theorem inv_single_inprocess (a : String) :
    TranscriptionQueue.Inv ⟨[], [a], [], []⟩ := by
  intro f
  by_cases h : f = a
  · subst h
    simp [TranscriptionQueue.cnt]
  · simp [TranscriptionQueue.cnt, h]

/-- C1 counterexample: the state reached by enqueuing `"a"` satisfies the
mutual-exclusion invariant, but one further Job Store operation —
`MarkCompleted "a"`, applied while `"a"` is still queued — produces a state
where `"a"` is in both the queue and the completed set.  The invariant is
therefore not preserved by every operation from every reachable state. -/
theorem mutual_exclusion_broken_by_markCompleted :
    TranscriptionQueue.Inv (TranscriptionQueue.initQueue.AddToQueue "a")
    ∧ ¬ TranscriptionQueue.Inv
        ((TranscriptionQueue.initQueue.AddToQueue "a").MarkCompleted "a") := by
  constructor
  · have hst : TranscriptionQueue.initQueue.AddToQueue "a"
        = (⟨["a"], [], [], []⟩ : TranscriptionQueue) := by decide
    rw [hst]
    exact inv_single_queued "a"
  · intro h
    exact absurd (h "a") (by decide)

/-- C1 amended: the mutual-exclusion invariant is preserved by `AddToQueue`
(provided the filename's failed entry, if any, is non-empty), by `GetNext`
unconditionally, and by `MarkCompleted`/`MarkFailed` under the worker's
calling protocol, namely that the filename being marked is not sitting in
the queue or in the other terminal set. -/
theorem mutual_exclusion_preserved_protocol :
    (∀ (tq : TranscriptionQueue) (f : String),
        tq.Inv → tq.Failed.lookup f ≠ some "" → (tq.AddToQueue f).Inv)
    ∧ (∀ tq : TranscriptionQueue, tq.Inv → tq.GetNext.2.Inv)
    ∧ (∀ (tq : TranscriptionQueue) (f : String),
        tq.Inv → f ∉ tq.Queue → tq.Failed.lookup f = none →
        (tq.MarkCompleted f).Inv)
    ∧ (∀ (tq : TranscriptionQueue) (f e : String),
        tq.Inv → f ∉ tq.Queue → f ∉ tq.Completed → (tq.MarkFailed f e).Inv) := by
  refine ⟨?_, ?_, ?_, ?_⟩
  · -- AddToQueue
    intro tq f hInv hne
    by_cases hk : f ∈ tq.Queue ∨ f ∈ tq.InProcess ∨ f ∈ tq.Completed ∨ tq.failedVal f ≠ ""
    · rw [addToQueue_known tq f hk]
      exact hInv
    · push_neg at hk
      obtain ⟨h1, h2, h3, h4⟩ := hk
      rw [addToQueue_unknown tq f h1 h2 h3 h4]
      intro g
      by_cases hg : g = f
      · subst hg
        have hcount : tq.Queue.count g = 0 := List.count_eq_zero.mpr h1
        have hlook : tq.Failed.lookup g = none := by
          cases hl : tq.Failed.lookup g with
          | none => rfl
          | some v =>
            exfalso
            have hv : v = "" := by
              simpa [TranscriptionQueue.failedVal, hl] using h4
            exact hne (by rw [hl, hv])
        simp [TranscriptionQueue.cnt, hcount, h2, h3, hlook, List.count_singleton]
      · have hgoal := hInv g
        simp only [TranscriptionQueue.cnt] at hgoal ⊢
        have hbeq : (f == g) = false := by
          simpa using fun he => hg he.symm
        simpa [List.count_append, List.count_singleton, hbeq] using hgoal
  · -- GetNext
    intro tq hInv
    cases hq : tq.Queue with
    | nil =>
      simp only [TranscriptionQueue.GetNext, hq]
      exact hInv
    | cons f rest =>
      simp only [TranscriptionQueue.GetNext, hq]
      intro g
      by_cases hg : g = f
      · subst hg
        have hf := hInv g
        simp only [TranscriptionQueue.cnt, hq, List.count_cons_self] at hf
        simp only [TranscriptionQueue.cnt]
        rw [if_pos mem_insertSet_self]
        split_ifs at hf ⊢ <;> omega
      · have hgoal := hInv g
        simp only [TranscriptionQueue.cnt, hq] at hgoal
        have hbeq : (f == g) = false := by
          simpa using fun he => hg he.symm
        rw [List.count_cons] at hgoal
        simp only [hbeq, Bool.false_eq_true, if_false, add_zero] at hgoal
        simp only [TranscriptionQueue.cnt]
        have hmem : (g ∈ insertSet tq.InProcess f) ↔ g ∈ tq.InProcess := by
          rw [mem_insertSet]
          simp [hg]
        simp only [hmem]
        exact hgoal
  · -- MarkCompleted
    intro tq f hInv hqmem hlook
    intro g
    simp only [TranscriptionQueue.MarkCompleted, TranscriptionQueue.cnt]
    by_cases hg : g = f
    · subst hg
      have hcount : tq.Queue.count g = 0 := List.count_eq_zero.mpr hqmem
      rw [hcount, if_neg not_mem_removeSet_self, if_pos mem_insertSet_self]
      simp [hlook]
    · have hgoal := hInv g
      simp only [TranscriptionQueue.cnt] at hgoal
      have hm1 : (g ∈ removeSet tq.InProcess f) ↔ g ∈ tq.InProcess := by
        rw [mem_removeSet]
        simp [hg]
      have hm2 : (g ∈ insertSet tq.Completed f) ↔ g ∈ tq.Completed := by
        rw [mem_insertSet]
        simp [hg]
      simp only [hm1, hm2]
      exact hgoal
  · -- MarkFailed
    intro tq f e hInv hqmem hcmem
    intro g
    simp only [TranscriptionQueue.MarkFailed, TranscriptionQueue.cnt]
    by_cases hg : g = f
    · subst hg
      have hcount : tq.Queue.count g = 0 := List.count_eq_zero.mpr hqmem
      rw [hcount, if_neg not_mem_removeSet_self, if_neg hcmem]
      simp [lookup_setKey_self]
    · have hgoal := hInv g
      simp only [TranscriptionQueue.cnt] at hgoal
      have hm1 : (g ∈ removeSet tq.InProcess f) ↔ g ∈ tq.InProcess := by
        rw [mem_removeSet]
        simp [hg]
      simp only [hm1, lookup_setKey_ne tq.Failed e hg]
      exact hgoal

/-- Witness for the protocol-respecting invariant preservation at concrete
stores. -/
theorem mutual_exclusion_preserved_protocol_witness :
    TranscriptionQueue.Inv (TranscriptionQueue.initQueue.AddToQueue "a")
    ∧ TranscriptionQueue.Inv (TranscriptionQueue.GetNext ⟨["a"], [], [], []⟩).2
    ∧ TranscriptionQueue.Inv (TranscriptionQueue.MarkCompleted ⟨[], ["a"], [], []⟩ "a")
    ∧ TranscriptionQueue.Inv (TranscriptionQueue.MarkFailed ⟨[], ["a"], [], []⟩ "a" "boom") :=
  ⟨mutual_exclusion_preserved_protocol.1 TranscriptionQueue.initQueue "a"
      inv_initQueue (by simp [TranscriptionQueue.initQueue]),
   mutual_exclusion_preserved_protocol.2.1 ⟨["a"], [], [], []⟩ (inv_single_queued "a"),
   mutual_exclusion_preserved_protocol.2.2.1 ⟨[], ["a"], [], []⟩ "a"
      (inv_single_inprocess "a") (by simp) (by simp),
   mutual_exclusion_preserved_protocol.2.2.2 ⟨[], ["a"], [], []⟩ "a" "boom"
      (inv_single_inprocess "a") (by simp) (by simp)⟩

/-- The transcription-building fold factors over its accumulator. -/
theorem foldl_build_append (es : List TranscriptEntry) (acc : String) :
    es.foldl (fun a e => a ++ e.Text ++ " ") acc
      = acc ++ es.foldl (fun a e => a ++ e.Text ++ " ") "" := by
  induction es generalizing acc with
  | nil => simp [String.append_empty]
  | cons e t ih =>
    simp only [List.foldl_cons]
    rw [ih (acc ++ e.Text ++ " "), ih ("" ++ e.Text ++ " ")]
    simp [String.append_assoc, String.empty_append]

/-- C2 counterexample: integrating the two segments `hello`, `world` writes
`transcription` as the string `hello world` followed by a space, which
differs from the space-joined concatenation of the segment texts. -/
theorem transcription_not_space_joined :
    (updateMetadataWithTranscript
        ⟨"1", "clip.mp4", "/media/clip.mp4", "video", "t", 0, "", [], []⟩
        [⟨0, 1, "hello", 0, "", ""⟩, ⟨1, 2, "world", 1, "", ""⟩]).Transcription
      = "hello world "
    ∧ (updateMetadataWithTranscript
        ⟨"1", "clip.mp4", "/media/clip.mp4", "video", "t", 0, "", [], []⟩
        [⟨0, 1, "hello", 0, "", ""⟩, ⟨1, 2, "world", 1, "", ""⟩]).Transcription
      ≠ specSpaceJoined
          ([⟨0, 1, "hello", 0, "", ""⟩, (⟨1, 2, "world", 1, "", ""⟩ : TranscriptEntry)].map
            (fun e => e.Text)) := by
  exact ⟨rfl, by decide⟩

/-- C2 amended: the integration step stores the segments in order and writes
`transcription` as the space-joined concatenation of the segment texts
followed by one trailing space (empty for an empty segment list). -/
theorem transcription_trailing_space_spec :
    ∀ (metadata : MediaMetadata) (es : List TranscriptEntry),
      (updateMetadataWithTranscript metadata es).Transcripts = es
      ∧ (updateMetadataWithTranscript metadata es).Transcription
          = specSpaceJoined (es.map (fun e => e.Text))
              ++ (if es.isEmpty then "" else " ") := by
  intro metadata es
  refine ⟨rfl, ?_⟩
  show es.foldl (fun a e => a ++ e.Text ++ " ") "" = _
  induction es with
  | nil => simp [specSpaceJoined]
  | cons e t ih =>
    rw [List.foldl_cons, foldl_build_append, ih]
    cases t with
    | nil => simp [specSpaceJoined, String.empty_append, String.append_empty]
    | cons e2 t2 =>
      simp [specSpaceJoined, String.empty_append, String.append_assoc]

/-- The segment loop is the filterMap of `segEntry` over the index-annotated
segment array: objects are kept with their original position, everything
else is dropped. -/
theorem parseSegLoop_eq_filterMap (segs : List JVal) :
    ∀ i, parseSegLoop i segs
      = (List.enumFrom i segs).filterMap (fun p => segEntry p.1 p.2) := by
  induction segs with
  | nil => intro i; simp [parseSegLoop]
  | cons s rest ih =>
    intro i
    simp only [List.enumFrom, List.filterMap_cons]
    cases s <;> simp [parseSegLoop, segEntry, ih]

/-- C3 counterexample: a segment object whose `start` is a string (not a
number) is not dropped — the parser keeps it, defaulting `start` to 0. -/
theorem malformed_start_kept_not_dropped :
    runWhisperXParse
        [("segments", JVal.arr
          [JVal.obj [("start", JVal.str "x"), ("end", JVal.num 1), ("text", JVal.str "hi")]])]
      = Except.ok [⟨0, 1, "hi", 0, "", ""⟩]
    ∧ runWhisperXParse
        [("segments", JVal.arr
          [JVal.obj [("start", JVal.str "x"), ("end", JVal.num 1), ("text", JVal.str "hi")]])]
      ≠ Except.ok [] := by
  refine ⟨rfl, ?_⟩
  intro h
  injection h with h1
  exact List.cons_ne_nil _ _ h1

/-- C3 amended: when the recognizer document carries a `segments` array the
job succeeds with the filterMap of the defensive per-element extraction —
non-object elements are dropped, object elements are always kept with
zero-value defaults for missing or mistyped `start`/`end`/`text` and their
original index; when the document has no `segments` array the whole job
fails with a format error. -/
theorem runWhisperXParse_spec :
    (∀ (doc : List (String × JVal)) (segs : List JVal),
        doc.lookup "segments" = some (JVal.arr segs) →
        runWhisperXParse doc
          = Except.ok (segs.enum.filterMap (fun p => segEntry p.1 p.2)))
    ∧ (∀ doc : List (String × JVal),
        (∀ segs, doc.lookup "segments" ≠ some (JVal.arr segs)) →
        runWhisperXParse doc = Except.error "invalid whisperx output format") := by
  constructor
  · intro doc segs h
    unfold runWhisperXParse
    split
    · rename_i segs2 heq
      have h2 := h.symm.trans heq
      injection h2 with h3
      injection h3 with h4
      subst h4
      rw [parseSegLoop_eq_filterMap segs 0]
      rfl
    · rename_i hne
      exact absurd h (hne segs)
  · intro doc h
    unfold runWhisperXParse
    split
    · rename_i segs heq
      exact absurd heq (h segs)
    · rfl

/-- Witness for the parse specification at concrete documents. -/
theorem runWhisperXParse_spec_witness :
    runWhisperXParse [("segments", JVal.arr [JVal.null])] = Except.ok []
    ∧ runWhisperXParse [] = Except.error "invalid whisperx output format" :=
  ⟨runWhisperXParse_spec.1 [("segments", JVal.arr [JVal.null])] [JVal.null] rfl,
   runWhisperXParse_spec.2 [] (fun segs => by simp)⟩

/-- C7: a non-directory media-store entry with a recognized audio/video
extension is enqueued by the startup scan exactly when neither the
`<f>.json` completed marker nor the `<f>.failed` marker is present in the
transcripts directory. -/
theorem discovery_enqueue_iff :
    ∀ (e : DirEntry) (tfiles : List String) (tq : TranscriptionQueue),
      e.isDir = false → isMediaFile e.name = true →
      ((shouldProcess e tfiles = true
          ↔ ((e.name ++ ".json") ∉ tfiles ∧ (e.name ++ ".failed") ∉ tfiles))
        ∧ checkExistingMediaFiles [e] tfiles tq
            = if shouldProcess e tfiles then tq.AddToQueue e.name else tq) := by
  intro e tfiles tq hdir hmedia
  constructor
  · simp [shouldProcess, hdir, hmedia, List.contains, List.elem_iff]
  · simp [checkExistingMediaFiles]

/-- Witness for the discovery decision at a concrete failed-marker layout. -/
theorem discovery_enqueue_iff_witness :
    (shouldProcess ⟨"a.mp3", false⟩ ["a.mp3.failed"] = true
        ↔ ("a.mp3" ++ ".json") ∉ ["a.mp3.failed"]
            ∧ ("a.mp3" ++ ".failed") ∉ ["a.mp3.failed"])
    ∧ checkExistingMediaFiles [⟨"a.mp3", false⟩] ["a.mp3.failed"]
          TranscriptionQueue.initQueue
        = if shouldProcess ⟨"a.mp3", false⟩ ["a.mp3.failed"] then
            TranscriptionQueue.initQueue.AddToQueue "a.mp3"
          else TranscriptionQueue.initQueue :=
  discovery_enqueue_iff ⟨"a.mp3", false⟩ ["a.mp3.failed"] TranscriptionQueue.initQueue
    rfl (by decide)

/-- Appending suffixes of different lengths to the same string yields
different strings. -/
theorem append_ne_of_length_ne (s : String) {a b : String}
    (h : a.length ≠ b.length) : s ++ a ≠ s ++ b := by
  intro he
  apply h
  have hl := congrArg String.length he
  simp only [String.length_append] at hl
  omega

/-- A false `contains` means non-membership. -/
theorem not_mem_of_contains_false {l : List String} {f : String}
    (h : l.contains f = false) : f ∉ l := by
  intro hmem
  rw [contains_iff_mem.mpr hmem] at h
  exact Bool.noConfusion h

/-- A true `contains` means membership. -/
theorem mem_of_contains_true {l : List String} {f : String}
    (h : l.contains f = true) : f ∈ l := contains_iff_mem.mp h

/-- C8: when `os.Chmod` on the recognition scratch directory fails, the
worker iteration takes the `log.Fatal` path and produces no successor state:
the process dies with the job neither marked failed nor marker-backed, and
no next job is processed — contradicting the never-fatal error design. -/
theorem chmod_failure_kills_worker :
    transcriptionWorkerStep "a.mp3"
        ⟨none, RecogResult.fatal, true, none⟩
        ⟨["a.mp3"], [], ["a.mp3.json"]⟩
        TranscriptionQueue.initQueue = none := rfl

/-- C9 counterexample: recognition succeeds (writing `a.mp3.json`) and the
integration stage then fails because the metadata record is missing, so the
worker also writes `a.mp3.failed` — both markers exist simultaneously. -/
theorem both_markers_after_integration_failure :
    (transcriptionWorkerStep "a.mp3"
        ⟨none, RecogResult.ok [], true, none⟩
        ⟨["a.mp3"], [], []⟩
        TranscriptionQueue.initQueue).map
      (fun p => p.2.transcripts.contains ("a.mp3" ++ ".json")
          && p.2.transcripts.contains ("a.mp3" ++ ".failed"))
      = some true := rfl

/-- C9 amended: starting from a state with neither marker present, after the
worker finishes the job the two markers `<f>.json` and `<f>.failed` coexist
exactly when recognition succeeded and the integration stage then failed;
in every other outcome they remain mutually exclusive. -/
theorem markers_exclusive_unless_integration_fails :
    ∀ (filename : String) (o : PipelineOracle) (fs : Fs)
      (tq tq' : TranscriptionQueue) (fs' : Fs),
      (filename ++ ".json") ∉ fs.transcripts →
      (filename ++ ".failed") ∉ fs.transcripts →
      transcriptionWorkerStep filename o fs tq = some (tq', fs') →
      (((filename ++ ".json") ∈ fs'.transcripts
          ∧ (filename ++ ".failed") ∈ fs'.transcripts)
        ↔ integrationFailed filename o fs = true) := by
  intro filename o fs tq tq' fs' hj hf hstep
  obtain ⟨oe, orec, op, ow⟩ := o
  obtain ⟨med, tr, md⟩ := fs
  have hjw : (filename ++ ".json") ≠ (filename ++ ".wav") :=
    append_ne_of_length_ne filename (by decide)
  have hfw : (filename ++ ".failed") ≠ (filename ++ ".wav") :=
    append_ne_of_length_ne filename (by decide)
  have hfj : (filename ++ ".failed") ≠ (filename ++ ".json") :=
    append_ne_of_length_ne filename (by decide)
  have hjf : (filename ++ ".json") ≠ (filename ++ ".failed") :=
    append_ne_of_length_ne filename (by decide)
  simp only [transcriptionWorkerStep, processTranscription] at hstep
  cases hm : med.contains filename with
  | false =>
    have hm' := not_mem_of_contains_false hm
    simp [hm'] at hstep
    obtain ⟨h1, h2⟩ := hstep
    subst h2
    simp [mem_insertSet, hj, hf, hjf, hm',
      integrationFailed, recognitionSucceeded]
  | true =>
    have hm' := mem_of_contains_true hm
    cases hv : isVideo filename with
    | false =>
      cases ha : isAudio filename with
      | false =>
        simp [hm', hv, ha] at hstep
        obtain ⟨h1, h2⟩ := hstep
        subst h2
        simp [mem_insertSet, hj, hf, hjf,
          integrationFailed, recognitionSucceeded, hv, ha]
      | true =>
        cases orec with
        | fatal =>
          simp [hm', hv, ha] at hstep
        | fail m =>
          simp [hm', hv, ha] at hstep
          obtain ⟨h1, h2⟩ := hstep
          subst h2
          simp [mem_insertSet, hj, hf, hjf,
            integrationFailed, recognitionSucceeded, hv, ha]
        | ok es =>
          cases hmd : md.contains (filename ++ ".json") with
          | false =>
            have hmd' := not_mem_of_contains_false hmd
            simp [hm', hv, ha, hmd'] at hstep
            obtain ⟨h1, h2⟩ := hstep
            subst h2
            simp [mem_insertSet, hj, hf, hjf, hm', hmd',
              integrationFailed, recognitionSucceeded, hv, ha]
          | true =>
            have hmd' := mem_of_contains_true hmd
            cases hp : op with
            | false =>
              simp [hm', hv, ha, hmd', hp] at hstep
              obtain ⟨h1, h2⟩ := hstep
              subst h2
              simp [mem_insertSet, hj, hf, hjf, hm', hmd',
                integrationFailed, recognitionSucceeded, hv, ha, hp]
            | true =>
              cases ow with
              | some e =>
                simp [hm', hv, ha, hmd', hp] at hstep
                obtain ⟨h1, h2⟩ := hstep
                subst h2
                simp [mem_insertSet, hj, hf, hjf, hm', hmd',
                  integrationFailed, recognitionSucceeded, hv, ha, hp]
              | none =>
                simp [hm', hv, ha, hmd', hp] at hstep
                obtain ⟨h1, h2⟩ := hstep
                subst h2
                simp [mem_insertSet, hj, hf, hfj, hm', hmd',
                  integrationFailed, recognitionSucceeded, hv, ha, hp]
    | true =>
      cases oe with
      | some e =>
        simp [hm', hv] at hstep
        obtain ⟨h1, h2⟩ := hstep
        subst h2
        simp [mem_insertSet, hj, hf, hjf,
          integrationFailed, recognitionSucceeded, hv]
      | none =>
        cases orec with
        | fatal =>
          simp [hm', hv] at hstep
        | fail m =>
          simp [hm', hv] at hstep
          obtain ⟨h1, h2⟩ := hstep
          subst h2
          simp [mem_insertSet, hj, hf, hjw, hjf,
            integrationFailed, recognitionSucceeded, hv]
        | ok es =>
          cases hmd : md.contains (filename ++ ".json") with
          | false =>
            have hmd' := not_mem_of_contains_false hmd
            simp [hm', hv, hmd'] at hstep
            obtain ⟨h1, h2⟩ := hstep
            subst h2
            simp [mem_insertSet, mem_removeSet, hj, hf, hjw, hfw, hjf, hm', hmd',
              integrationFailed, recognitionSucceeded, hv]
          | true =>
            have hmd' := mem_of_contains_true hmd
            cases hp : op with
            | false =>
              simp [hm', hv, hmd', hp] at hstep
              obtain ⟨h1, h2⟩ := hstep
              subst h2
              simp [mem_insertSet, mem_removeSet, hj, hf, hjw, hfw, hjf, hm', hmd',
                integrationFailed, recognitionSucceeded, hv, hp]
            | true =>
              cases ow with
              | some e2 =>
                simp [hm', hv, hmd', hp] at hstep
                obtain ⟨h1, h2⟩ := hstep
                subst h2
                simp [mem_insertSet, mem_removeSet, hj, hf, hjw, hfw, hjf, hm', hmd',
                  integrationFailed, recognitionSucceeded, hv, hp]
              | none =>
                simp [hm', hv, hmd', hp] at hstep
                obtain ⟨h1, h2⟩ := hstep
                subst h2
                simp [mem_insertSet, mem_removeSet, hj, hf, hjw, hfw, hfj, hm', hmd',
                  integrationFailed, recognitionSucceeded, hv, hp]

/-- Witness for the marker-exclusivity characterization at a concrete
missing-metadata run. -/
theorem markers_exclusive_unless_integration_fails_witness :
    (("a.mp3" ++ ".json")
          ∈ (⟨["a.mp3"], ["a.mp3.json", "a.mp3.failed"], []⟩ : Fs).transcripts
        ∧ ("a.mp3" ++ ".failed")
          ∈ (⟨["a.mp3"], ["a.mp3.json", "a.mp3.failed"], []⟩ : Fs).transcripts)
      ↔ integrationFailed "a.mp3" ⟨none, RecogResult.ok [], true, none⟩
          ⟨["a.mp3"], [], []⟩ = true :=
  markers_exclusive_unless_integration_fails "a.mp3"
    ⟨none, RecogResult.ok [], true, none⟩ ⟨["a.mp3"], [], []⟩
    TranscriptionQueue.initQueue
    ⟨[], [], [], [("a.mp3", "failed to update metadata: failed to read metadata file")]⟩
    ⟨["a.mp3"], ["a.mp3.json", "a.mp3.failed"], []⟩
    (by decide) (by decide) rfl
